import Mathlib

/-!
Shallow embedding of the distributed random-search hyper-parameter
optimization notebook (`DistHPO_rpv.ipynb`).

The notebook's components are modelled as follows:

* `TrainingHistory` — the per-trial mapping from metric name to the ordered
  list of per-epoch values, returned by the remote training call.
* `pymax` / `argmax` / `argmin` — Python's `max` over a list and numpy's
  `ndarray.argmax` / `ndarray.argmin` (first index attaining the extremum).
* `best_scores` — the model-selection scalar `max(h['val_acc'])` per history.
* Validation accuracies are rationals (`ℚ`): the notebook's floats are used
  only through order comparisons and max, which the rationals model exactly.
-/

/-- A per-trial training history: each Keras metric name maps to the ordered
sequence of per-epoch values (`history.history` of the remote training call). -/
structure TrainingHistory where
  loss : List ℚ
  acc : List ℚ
  val_loss : List ℚ
  val_acc : List ℚ
deriving DecidableEq

/-- Python `max` over a list of numbers, as used in `max(h['val_acc'])`.
Python raises on an empty list; histories always have `n_epochs = 16 ≥ 1`
epochs, so the `[]` case is unreachable and its value (0) is arbitrary. -/
def pymax : List ℚ → ℚ
  | [] => 0
  | x :: xs => xs.foldl max x

/-- Python `min` counterpart of `pymax` (kept for symmetry of the
development; the notebook's argmin is over the same `best_scores`). -/
def pymin : List ℚ → ℚ
  | [] => 0
  | x :: xs => xs.foldl min x

/-- numpy `ndarray.argmax`: the first index attaining the maximum value. -/
def argmax (l : List ℚ) : Nat := l.indexOf (pymax l)

/-- numpy `ndarray.argmin`: the first index attaining the minimum value. -/
def argmin (l : List ℚ) : Nat := l.indexOf (pymin l)

/-- The model-selection scalars of cell 19:
`best_scores = np.array([max(h['val_acc']) for h in histories])`. -/
def best_scores (histories : List TrainingHistory) : List ℚ :=
  histories.map (fun h => pymax h.val_acc)

/-- The synthetic four-trial input of the end-to-end scenario: per-epoch
validation accuracies [0.5,0.6], [0.5,0.9], [0.5,0.55], [0.5,0.7]. -/
def syntheticHistories : List TrainingHistory :=
  [ { loss := [], acc := [], val_loss := [], val_acc := [(0.5 : ℚ), 0.6] },
    { loss := [], acc := [], val_loss := [], val_acc := [(0.5 : ℚ), 0.9] },
    { loss := [], acc := [], val_loss := [], val_acc := [(0.5 : ℚ), 0.55] },
    { loss := [], acc := [], val_loss := [], val_acc := [(0.5 : ℚ), 0.7] } ]

theorem pymax_cons (x : ℚ) (xs : List ℚ) : pymax (x :: xs) = xs.foldl max x := rfl

theorem pymin_cons (x : ℚ) (xs : List ℚ) : pymin (x :: xs) = xs.foldl min x := rfl

theorem le_foldl_max (xs : List ℚ) : ∀ a b : ℚ, a ≤ b → a ≤ xs.foldl max b := by
  induction xs with
  | nil => intro a b h; simpa using h
  | cons x xs ih =>
    intro a b h
    exact ih a (max b x) (le_trans h (le_max_left b x))

theorem mem_le_foldl_max (xs : List ℚ) : ∀ (a x : ℚ), x ∈ xs → x ≤ xs.foldl max a := by
  induction xs with
  | nil => intro a x hx; cases hx
  | cons y ys ih =>
    intro a x hx
    cases hx with
    | head => exact le_foldl_max ys y (max a y) (le_max_right a y)
    | tail _ h => exact ih (max a y) x h

theorem foldl_max_choice (xs : List ℚ) : ∀ a : ℚ, xs.foldl max a = a ∨ xs.foldl max a ∈ xs := by
  induction xs with
  | nil => intro a; exact Or.inl rfl
  | cons x xs ih =>
    intro a
    rcases ih (max a x) with h | h
    · rw [List.foldl_cons, h]
      rcases max_choice a x with h1 | h1
      · exact Or.inl h1
      · exact Or.inr (by rw [h1]; exact List.mem_cons_self x xs)
    · exact Or.inr (List.mem_cons_of_mem x h)

theorem foldl_min_le (xs : List ℚ) : ∀ a b : ℚ, b ≤ a → xs.foldl min b ≤ a := by
  induction xs with
  | nil => intro a b h; simpa using h
  | cons x xs ih =>
    intro a b h
    exact ih a (min b x) (le_trans (min_le_left b x) h)

theorem foldl_min_le_mem (xs : List ℚ) : ∀ (a x : ℚ), x ∈ xs → xs.foldl min a ≤ x := by
  induction xs with
  | nil => intro a x hx; cases hx
  | cons y ys ih =>
    intro a x hx
    cases hx with
    | head => exact foldl_min_le ys y (min a y) (min_le_right a y)
    | tail _ h => exact ih (min a y) x h

theorem foldl_min_choice (xs : List ℚ) : ∀ a : ℚ, xs.foldl min a = a ∨ xs.foldl min a ∈ xs := by
  induction xs with
  | nil => intro a; exact Or.inl rfl
  | cons x xs ih =>
    intro a
    rcases ih (min a x) with h | h
    · rw [List.foldl_cons, h]
      rcases min_choice a x with h1 | h1
      · exact Or.inl h1
      · exact Or.inr (by rw [h1]; exact List.mem_cons_self x xs)
    · exact Or.inr (List.mem_cons_of_mem x h)

theorem pymax_mem (l : List ℚ) (h : l ≠ []) : pymax l ∈ l := by
  cases l with
  | nil => exact absurd rfl h
  | cons x xs =>
    rw [pymax_cons]
    rcases foldl_max_choice xs x with h1 | h1
    · rw [h1]; exact List.mem_cons_self x xs
    · exact List.mem_cons_of_mem x h1

theorem le_pymax (l : List ℚ) (x : ℚ) (hx : x ∈ l) : x ≤ pymax l := by
  cases l with
  | nil => cases hx
  | cons y ys =>
    rw [pymax_cons]
    cases hx with
    | head => exact le_foldl_max ys x x (le_refl x)
    | tail _ h => exact mem_le_foldl_max ys y x h

theorem pymin_mem (l : List ℚ) (h : l ≠ []) : pymin l ∈ l := by
  cases l with
  | nil => exact absurd rfl h
  | cons x xs =>
    rw [pymin_cons]
    rcases foldl_min_choice xs x with h1 | h1
    · rw [h1]; exact List.mem_cons_self x xs
    · exact List.mem_cons_of_mem x h1

theorem pymin_le (l : List ℚ) (x : ℚ) (hx : x ∈ l) : pymin l ≤ x := by
  cases l with
  | nil => cases hx
  | cons y ys =>
    rw [pymin_cons]
    cases hx with
    | head => exact foldl_min_le ys x x (le_refl x)
    | tail _ h => exact foldl_min_le_mem ys y x h

theorem argmax_lt_length (l : List ℚ) (h : l ≠ []) : argmax l < l.length :=
  List.indexOf_lt_length.mpr (pymax_mem l h)

theorem argmin_lt_length (l : List ℚ) (h : l ≠ []) : argmin l < l.length :=
  List.indexOf_lt_length.mpr (pymin_mem l h)

theorem get_argmax (l : List ℚ) (h : argmax l < l.length) :
    l.get ⟨argmax l, h⟩ = pymax l := by
  show l.get ⟨l.indexOf (pymax l), h⟩ = pymax l
  exact List.indexOf_get h

theorem get_argmin (l : List ℚ) (h : argmin l < l.length) :
    l.get ⟨argmin l, h⟩ = pymin l := by
  show l.get ⟨l.indexOf (pymin l), h⟩ = pymin l
  exact List.indexOf_get h

/-- C1: for the synthetic 4-trial input with per-epoch validation accuracies
[0.5,0.6], [0.5,0.9], [0.5,0.55], [0.5,0.7], the model selector (per-history
scalar = max validation accuracy, best = argmax, worst = argmin of
`best_scores`) reports trial 1 as the best trial and trial 2 as the worst. -/
theorem modelSelector_synthetic_best_worst :
    argmax (best_scores syntheticHistories) = 1 ∧
    argmin (best_scores syntheticHistories) = 2 := by
  have hb : best_scores syntheticHistories = [(0.6 : ℚ), 0.9, 0.55, 0.7] := by
    norm_num [best_scores, syntheticHistories, pymax, List.foldl, max_def]
  have hmax : pymax [(0.6 : ℚ), 0.9, 0.55, 0.7] = 0.9 := by
    norm_num [pymax, List.foldl, max_def]
  have hmin : pymin [(0.6 : ℚ), 0.9, 0.55, 0.7] = 0.55 := by
    norm_num [pymin, List.foldl, min_def]
  constructor
  · unfold argmax
    rw [hb, hmax]
    rw [List.indexOf_cons_ne _ (by norm_num), List.indexOf_cons_eq _ rfl]
  · unfold argmin
    rw [hb, hmin]
    rw [List.indexOf_cons_ne _ (by norm_num), List.indexOf_cons_ne _ (by norm_num),
      List.indexOf_cons_eq _ rfl]

/-- C2: for every non-empty list of training histories, under the scalar
rule `best_scores` (max validation accuracy over epochs), the index reported
by `argmax` carries a scalar that is greatest, the index reported by
`argmin` carries a scalar that is least, and for a one-element list both
reported indices equal 0, the single element's index. -/
theorem modelSelector_argmax_argmin (hs : List TrainingHistory) (hne : hs ≠ []) :
    argmax (best_scores hs) < hs.length ∧
    argmin (best_scores hs) < hs.length ∧
    (∀ j, j < hs.length →
      (best_scores hs).getD j 0 ≤ (best_scores hs).getD (argmax (best_scores hs)) 0) ∧
    (∀ j, j < hs.length →
      (best_scores hs).getD (argmin (best_scores hs)) 0 ≤ (best_scores hs).getD j 0) ∧
    (hs.length = 1 → argmax (best_scores hs) = 0 ∧ argmin (best_scores hs) = 0) := by
  have hlen : (best_scores hs).length = hs.length := List.length_map hs _
  have hbne : best_scores hs ≠ [] := by
    intro h
    exact hne (List.map_eq_nil.mp h)
  have hmaxlt : argmax (best_scores hs) < (best_scores hs).length :=
    argmax_lt_length (best_scores hs) hbne
  have hminlt : argmin (best_scores hs) < (best_scores hs).length :=
    argmin_lt_length (best_scores hs) hbne
  refine ⟨hlen ▸ hmaxlt, hlen ▸ hminlt, ?_, ?_, ?_⟩
  · intro j hj
    have hj' : j < (best_scores hs).length := by rw [hlen]; exact hj
    rw [List.getD_eq_get (best_scores hs) 0 hj', List.getD_eq_get (best_scores hs) 0 hmaxlt,
      get_argmax (best_scores hs) hmaxlt]
    exact le_pymax (best_scores hs) _ (List.get_mem _ _ _)
  · intro j hj
    have hj' : j < (best_scores hs).length := by rw [hlen]; exact hj
    rw [List.getD_eq_get (best_scores hs) 0 hj', List.getD_eq_get (best_scores hs) 0 hminlt,
      get_argmin (best_scores hs) hminlt]
    exact pymin_le (best_scores hs) _ (List.get_mem _ _ _)
  · intro h1
    constructor
    · have := hmaxlt
      rw [hlen, h1] at this
      omega
    · have := hminlt
      rw [hlen, h1] at this
      omega

/-- Witness for C2: the argmax/argmin property instantiated at the concrete
synthetic four-history input. -/
theorem modelSelector_argmax_argmin_witness :
    argmax (best_scores syntheticHistories) < syntheticHistories.length ∧
    argmin (best_scores syntheticHistories) < syntheticHistories.length ∧
    (∀ j, j < syntheticHistories.length →
      (best_scores syntheticHistories).getD j 0 ≤
        (best_scores syntheticHistories).getD (argmax (best_scores syntheticHistories)) 0) ∧
    (∀ j, j < syntheticHistories.length →
      (best_scores syntheticHistories).getD (argmin (best_scores syntheticHistories)) 0 ≤
        (best_scores syntheticHistories).getD j 0) ∧
    (syntheticHistories.length = 1 →
      argmax (best_scores syntheticHistories) = 0 ∧
      argmin (best_scores syntheticHistories) = 0) :=
  modelSelector_argmax_argmin syntheticHistories (by simp [syntheticHistories])

/-- The model of `np.random.choice(options, size=n)`: the underlying random
source is abstracted as a stream `pick` of draws, and draw `i` selects the
element of `options` at index `pick i` reduced modulo the number of options,
so every drawn value comes from `options`. -/
def npChoice {α : Type} [Inhabited α] (options : List α) (pick : Nat → Nat) (n : Nat) :
    List α :=
  (List.range n).map (fun i => options.getD (pick i % options.length) default)

/-- The model of `np.random.rand(n)`: the abstract random stream `u` is
reduced to the unit interval by taking the fractional part, so draw `i` is a
uniform-continuous value in [0,1). -/
def npRand (u : Nat → ℚ) (n : Nat) : List ℚ :=
  (List.range n).map (fun i => Int.fract (u i))

/-- The candidate widths of the first convolution layer. -/
def h1Options : List Nat := [4, 8, 16, 32, 64]

/-- The candidate widths of the second convolution layer. -/
def h2Options : List Nat := [4, 8, 16, 32, 64]

/-- The candidate widths of the third convolution layer. -/
def h3Options : List Nat := [8, 16, 32, 64, 128]

/-- The candidate fully-connected layer widths. -/
def fcOptions : List Nat := [32, 64, 128, 256]

/-- The candidate learning rates. -/
def lrOptions : List ℚ := [(0.0001 : ℚ), 0.001, 0.01]

/-- The candidate optimizer names. -/
def optimizerOptions : List String := ["Adadelta", "Adam", "Nadam"]

/-- The per-dimension hyper-parameter arrays generated in cell 7 of the
notebook, one entry per trial in each field. -/
structure HPOSamples where
  h1 : List Nat
  h2 : List Nat
  h3 : List Nat
  fc_sizes : List Nat
  lr : List ℚ
  dropout : List ℚ
  optimizer : List String

/-- The Sample Generator of cell 7: each hyper-parameter dimension is drawn
independently (`np.random.choice` over its candidate set, `np.random.rand`
for the dropout rate), with one abstract random stream per dimension. -/
def generateSamples (n : Nat) (p1 p2 p3 p4 p5 p6 : Nat → Nat) (u : Nat → ℚ) : HPOSamples :=
  { h1 := npChoice h1Options p1 n,
    h2 := npChoice h2Options p2 n,
    h3 := npChoice h3Options p3 n,
    fc_sizes := npChoice fcOptions p4 n,
    lr := npChoice lrOptions p5 n,
    dropout := npRand u n,
    optimizer := npChoice optimizerOptions p6 n }

theorem npChoice_length {α : Type} [Inhabited α] (options : List α) (pick : Nat → Nat)
    (n : Nat) : (npChoice options pick n).length = n := by
  simp [npChoice]

theorem npChoice_mem {α : Type} [Inhabited α] (options : List α) (hne : options ≠ [])
    (pick : Nat → Nat) (n : Nat) (x : α) (hx : x ∈ npChoice options pick n) : x ∈ options := by
  simp only [npChoice, List.mem_map, List.mem_range] at hx
  obtain ⟨i, _, rfl⟩ := hx
  have hlen : 0 < options.length := List.length_pos.mpr hne
  have hlt : pick i % options.length < options.length := Nat.mod_lt _ hlen
  rw [List.getD_eq_getElem options default hlt]
  exact List.getElem_mem hlt

theorem npRand_length (u : Nat → ℚ) (n : Nat) : (npRand u n).length = n := by
  simp [npRand]

theorem npRand_mem_Ico (u : Nat → ℚ) (n : Nat) (x : ℚ) (hx : x ∈ npRand u n) :
    0 ≤ x ∧ x < 1 := by
  simp only [npRand, List.mem_map, List.mem_range] at hx
  obtain ⟨i, _, rfl⟩ := hx
  exact ⟨Int.fract_nonneg (u i), Int.fract_lt_one (u i)⟩

/-- C5: for every trial count and every abstract random source, the Sample
Generator produces exactly `n` entries per hyper-parameter dimension, and
every generated value lies in its configured candidate set or range: the
convolution widths in their discrete sets, the fully-connected width in
`fcOptions`, the learning rate in `lrOptions`, the optimizer name among the
three configured names, and every dropout rate in the half-open range
[0,1). -/
theorem sampleGenerator_in_range (n : Nat) (p1 p2 p3 p4 p5 p6 : Nat → Nat) (u : Nat → ℚ) :
    (generateSamples n p1 p2 p3 p4 p5 p6 u).h1.length = n ∧
    (generateSamples n p1 p2 p3 p4 p5 p6 u).h2.length = n ∧
    (generateSamples n p1 p2 p3 p4 p5 p6 u).h3.length = n ∧
    (generateSamples n p1 p2 p3 p4 p5 p6 u).fc_sizes.length = n ∧
    (generateSamples n p1 p2 p3 p4 p5 p6 u).lr.length = n ∧
    (generateSamples n p1 p2 p3 p4 p5 p6 u).dropout.length = n ∧
    (generateSamples n p1 p2 p3 p4 p5 p6 u).optimizer.length = n ∧
    (∀ x ∈ (generateSamples n p1 p2 p3 p4 p5 p6 u).h1, x ∈ h1Options) ∧
    (∀ x ∈ (generateSamples n p1 p2 p3 p4 p5 p6 u).h2, x ∈ h2Options) ∧
    (∀ x ∈ (generateSamples n p1 p2 p3 p4 p5 p6 u).h3, x ∈ h3Options) ∧
    (∀ x ∈ (generateSamples n p1 p2 p3 p4 p5 p6 u).fc_sizes, x ∈ fcOptions) ∧
    (∀ x ∈ (generateSamples n p1 p2 p3 p4 p5 p6 u).lr, x ∈ lrOptions) ∧
    (∀ x ∈ (generateSamples n p1 p2 p3 p4 p5 p6 u).optimizer, x ∈ optimizerOptions) ∧
    (∀ x ∈ (generateSamples n p1 p2 p3 p4 p5 p6 u).dropout, 0 ≤ x ∧ x < 1) := by
  refine ⟨npChoice_length _ _ _, npChoice_length _ _ _, npChoice_length _ _ _,
    npChoice_length _ _ _, npChoice_length _ _ _, npRand_length _ _,
    npChoice_length _ _ _, ?_, ?_, ?_, ?_, ?_, ?_, ?_⟩
  · exact fun x hx => npChoice_mem h1Options (by simp [h1Options]) p1 n x hx
  · exact fun x hx => npChoice_mem h2Options (by simp [h2Options]) p2 n x hx
  · exact fun x hx => npChoice_mem h3Options (by simp [h3Options]) p3 n x hx
  · exact fun x hx => npChoice_mem fcOptions (by simp [fcOptions]) p4 n x hx
  · exact fun x hx => npChoice_mem lrOptions (by simp [lrOptions]) p5 n x hx
  · exact fun x hx => npChoice_mem optimizerOptions (by simp [optimizerOptions]) p6 n x hx
  · exact fun x hx => npRand_mem_Ico u n x hx

/-- The test `b.startswith('/')` used by `os.path.join` to detect an
absolute second component. -/
def startsWithSlash (s : String) : Bool := s.data.headD ' ' == '/'

/-- The test `a.endswith('/')` used by `os.path.join`. -/
def endsWithSlash (s : String) : Bool := s.data.getLastD ' ' == '/'

/-- The posix `os.path.join(a, b)` for two components: `b` wins if absolute,
otherwise `b` is appended to `a` with a separating slash unless `a` is empty
or already ends in a slash. -/
def os_path_join (a b : String) : String :=
  if startsWithSlash b then b
  else if a == "" || endsWithSlash a then a ++ b
  else a ++ "/" ++ b

/-- The checkpoint path pre-computed by the dispatch loop of cell 10:
`os.path.join(checkpoint_dir, 'model_%i.h5' % ihp)`. -/
def checkpointFile (dir : String) (ihp : Nat) : String :=
  os_path_join dir ("model_" ++ Nat.repr ihp ++ ".h5")

/-- The model file path the Evaluator loads in cell 28:
`os.path.join(checkpoint_dir, 'model_%i.h5' % best_scores.argmax())`. -/
def evaluatorModelFile (dir : String) (bestScores : List ℚ) : String :=
  os_path_join dir ("model_" ++ Nat.repr (argmax bestScores) ++ ".h5")

theorem string_data_inj (a b : String) (h : a.data = b.data) : a = b := by
  cases a
  cases b
  exact congrArg String.mk h

theorem data_model_append (x : String) :
    ("model_" ++ x).data = 'm' :: 'o' :: 'd' :: 'e' :: 'l' :: '_' :: x.data := by
  rw [String.data_append]
  rfl

theorem startsWithSlash_model (x : String) :
    startsWithSlash ("model_" ++ x) = false := by
  simp only [startsWithSlash, data_model_append, List.headD]
  rfl

theorem checkpointFile_eq_append (dir : String) (i : Nat) :
    checkpointFile dir i =
      (if (dir == "" || endsWithSlash dir) = true then dir else dir ++ "/") ++
        ("model_" ++ Nat.repr i ++ ".h5") := by
  unfold checkpointFile os_path_join
  rw [String.append_assoc "model_" (Nat.repr i) ".h5", startsWithSlash_model]
  simp only [Bool.false_eq_true, if_false]
  split
  · rfl
  · rfl

theorem toDigitsCore_append (b : Nat) :
    ∀ (f n : Nat) (ds : List Char),
      Nat.toDigitsCore b f n ds = Nat.toDigitsCore b f n [] ++ ds := by
  intro f
  induction f with
  | zero => intro n ds; rfl
  | succ f ih =>
    intro n ds
    simp only [Nat.toDigitsCore]
    by_cases h : n / b = 0
    · simp [h]
    · simp only [h, if_false]
      rw [ih (n / b) (Nat.digitChar (n % b) :: ds), ih (n / b) [Nat.digitChar (n % b)]]
      simp

theorem toDigitsCore_fuel (b : Nat) (hb : 2 ≤ b) :
    ∀ (n f g : Nat) (ds : List Char), n < f → n < g →
      Nat.toDigitsCore b f n ds = Nat.toDigitsCore b g n ds := by
  intro n
  induction n using Nat.strong_induction_on with
  | _ n ih =>
    intro f g ds hf hg
    cases f with
    | zero => omega
    | succ f1 =>
      cases g with
      | zero => omega
      | succ g1 =>
        simp only [Nat.toDigitsCore]
        by_cases h : n / b = 0
        · simp [h]
        · simp only [h, if_false]
          have hn : 0 < n := by
            rcases Nat.eq_zero_or_pos n with h0 | h0
            · exfalso; apply h; rw [h0]; exact Nat.zero_div b
            · exact h0
          have hdiv : n / b < n := Nat.div_lt_self hn (by omega)
          exact ih (n / b) hdiv f1 g1 _ (by omega) (by omega)

theorem toDigits_unfold (n : Nat) :
    Nat.toDigits 10 n =
      if n < 10 then [Nat.digitChar n]
      else Nat.toDigits 10 (n / 10) ++ [Nat.digitChar (n % 10)] := by
  by_cases h : n < 10
  · have h0 : n / 10 = 0 := Nat.div_eq_of_lt h
    have hm : n % 10 = n := Nat.mod_eq_of_lt h
    rw [if_pos h]
    show Nat.toDigitsCore 10 (n + 1) n [] = [Nat.digitChar n]
    simp [Nat.toDigitsCore, h0, hm]
  · have h0 : n / 10 ≠ 0 := (Nat.div_pos (by omega) (by omega)).ne'
    have hd : n / 10 < n := Nat.div_lt_self (by omega) (by omega)
    show Nat.toDigitsCore 10 (n + 1) n [] = _
    simp only [Nat.toDigitsCore, h0, if_false, if_neg h]
    rw [toDigitsCore_append 10 n (n / 10) [Nat.digitChar (n % 10)]]
    rw [toDigitsCore_fuel 10 (by omega) (n / 10) n (n / 10 + 1) [] (by omega) (by omega)]
    rfl

theorem digitChar_inj_lt10 :
    ∀ a, a < 10 → ∀ b, b < 10 → Nat.digitChar a = Nat.digitChar b → a = b := by
  decide

theorem toDigits_ne_nil (n : Nat) : Nat.toDigits 10 n ≠ [] := by
  rw [toDigits_unfold]
  by_cases h : n < 10 <;> simp [h]

theorem toDigits_inj : ∀ m n : Nat, Nat.toDigits 10 m = Nat.toDigits 10 n → m = n := by
  intro m
  induction m using Nat.strong_induction_on with
  | _ m ih =>
    intro n heq
    rw [toDigits_unfold m, toDigits_unfold n] at heq
    by_cases hm : m < 10 <;> by_cases hn : n < 10
    · rw [if_pos hm, if_pos hn] at heq
      exact digitChar_inj_lt10 m hm n hn (List.cons.inj heq).1
    · rw [if_pos hm, if_neg hn] at heq
      exfalso
      have hlen := congrArg List.length heq
      simp only [List.length_cons, List.length_append, List.length_nil] at hlen
      have : Nat.toDigits 10 (n / 10) = [] :=
        List.length_eq_zero.mp (by omega)
      exact toDigits_ne_nil (n / 10) this
    · rw [if_neg hm, if_pos hn] at heq
      exfalso
      have hlen := congrArg List.length heq
      simp only [List.length_cons, List.length_append, List.length_nil] at hlen
      have : Nat.toDigits 10 (m / 10) = [] :=
        List.length_eq_zero.mp (by omega)
      exact toDigits_ne_nil (m / 10) this
    · rw [if_neg hm, if_neg hn] at heq
      have hparts := List.append_inj' heq rfl
      have hdiv : m / 10 = n / 10 :=
        ih (m / 10) (Nat.div_lt_self (by omega) (by omega)) (n / 10) hparts.1
      have hmod : m % 10 = n % 10 :=
        digitChar_inj_lt10 (m % 10) (Nat.mod_lt m (by omega)) (n % 10)
          (Nat.mod_lt n (by omega)) (List.cons.inj hparts.2).1
      omega

theorem repr_data_eq_toDigits (n : Nat) : (Nat.repr n).data = Nat.toDigits 10 n := rfl

theorem nat_repr_inj (m n : Nat) (h : Nat.repr m = Nat.repr n) : m = n :=
  toDigits_inj m n (congrArg String.data h)

theorem checkpointFile_inj (dir : String) (i j : Nat)
    (h : checkpointFile dir i = checkpointFile dir j) : i = j := by
  rw [checkpointFile_eq_append, checkpointFile_eq_append] at h
  have hd := congrArg String.data h
  simp only [String.data_append] at hd
  have h2 := List.append_cancel_left hd
  have h3 := List.append_cancel_right h2
  have h4 := List.append_cancel_left h3
  exact toDigits_inj i j h4

/-- The fixed training batch size of cell 7. -/
def batch_size : Nat := 64

/-- The fixed epoch count of cell 7. -/
def n_epochs : Nat := 16

/-- A JobDescriptor: one hyper-parameter tuple plus the shared run
configuration, exactly the arguments passed to `lv.apply(build_and_train, …)`
for one trial in cell 10. -/
structure JobDescriptor where
  trial : Nat
  conv_sizes : Nat × Nat × Nat
  fc_sizes : Nat
  dropout : ℚ
  optimizer : String
  lr : ℚ
  batch_size : Nat
  n_epochs : Nat
  checkpoint_file : String
deriving DecidableEq

/-- One iteration of the dispatch loop of cell 10: index every per-dimension
array at the trial index `ihp` and pre-compute the per-trial checkpoint
path. -/
def mkDescriptor (s : HPOSamples) (dir : String) (ihp : Nat) : JobDescriptor :=
  { trial := ihp,
    conv_sizes := (s.h1.getD ihp 0, s.h2.getD ihp 0, s.h3.getD ihp 0),
    fc_sizes := s.fc_sizes.getD ihp 0,
    dropout := s.dropout.getD ihp 0,
    optimizer := s.optimizer.getD ihp "",
    lr := s.lr.getD ihp 0,
    batch_size := batch_size,
    n_epochs := n_epochs,
    checkpoint_file := checkpointFile dir ihp }

/-- The job descriptors submitted by the dispatch loop, in generation
order. -/
def dispatchJobs (s : HPOSamples) (dir : String) (n : Nat) : List JobDescriptor :=
  (List.range n).map (mkDescriptor s dir)

theorem dispatchJobs_get (s : HPOSamples) (dir : String) (n i : Nat) (d : JobDescriptor)
    (hd : (dispatchJobs s dir n).get? i = some d) : d = mkDescriptor s dir i := by
  rw [dispatchJobs, List.get?_map] at hd
  rcases Option.map_eq_some'.mp hd with ⟨a, ha, hfa⟩
  rcases List.get?_eq_some.mp ha with ⟨hlt, hget⟩
  have hai : a = i := by
    rw [← hget]
    exact List.get_range i hlt
  rw [← hfa, hai]

/-- A concrete two-trial hyper-parameter sample set, used to instantiate the
universally quantified dispatch-loop theorems. -/
def witnessSamples : HPOSamples :=
  { h1 := [4, 8], h2 := [4, 8], h3 := [8, 16], fc_sizes := [32, 64],
    lr := [(1 : ℚ)/1000, 1/100], dropout := [0, 1/2],
    optimizer := ["Adam", "Nadam"] }

/-- C3: checkpoint paths assigned by the dispatch loop are pairwise
distinct: any two descriptors at distinct trial indices `i ≠ j` of the
submitted list carry different `checkpoint_file` paths. -/
theorem checkpoint_paths_pairwise_distinct (s : HPOSamples) (dir : String) (n i j : Nat)
    (di dj : JobDescriptor) (hne : i ≠ j)
    (hdi : (dispatchJobs s dir n).get? i = some di)
    (hdj : (dispatchJobs s dir n).get? j = some dj) :
    di.checkpoint_file ≠ dj.checkpoint_file := by
  have hdi' := dispatchJobs_get s dir n i di hdi
  have hdj' := dispatchJobs_get s dir n j dj hdj
  rw [hdi', hdj']
  intro hcontra
  exact hne (checkpointFile_inj dir i j hcontra)

/-- Witness for C3: the two checkpoint paths of a concrete two-trial
dispatch are distinct. -/
theorem checkpoint_paths_pairwise_distinct_witness :
    (mkDescriptor witnessSamples "/scratch/rpv_hpo_24194075" 0).checkpoint_file ≠
      (mkDescriptor witnessSamples "/scratch/rpv_hpo_24194075" 1).checkpoint_file :=
  checkpoint_paths_pairwise_distinct witnessSamples "/scratch/rpv_hpo_24194075" 2 0 1
    (mkDescriptor witnessSamples "/scratch/rpv_hpo_24194075" 0)
    (mkDescriptor witnessSamples "/scratch/rpv_hpo_24194075" 1)
    (by decide) rfl rfl

/-- C9: for a checkpoint directory that is non-empty and does not already
end in a slash (as the notebook's `checkpoint_dir` is), the dispatch loop's
checkpoint path for trial `i` is exactly `dir ++ "/model_" ++ i ++ ".h5"`,
and the model file the Evaluator loads is the checkpoint path of the trial
index selected by `argmax` over `best_scores`. -/
theorem checkpoint_path_form_and_eval (dir : String) (i : Nat) (bs : List ℚ)
    (h1 : dir ≠ "") (h2 : endsWithSlash dir = false) :
    checkpointFile dir i = dir ++ "/model_" ++ Nat.repr i ++ ".h5" ∧
    evaluatorModelFile dir bs = checkpointFile dir (argmax bs) := by
  constructor
  · rw [checkpointFile_eq_append]
    have hbeq : (dir == "") = false := beq_eq_false_iff_ne.mpr h1
    rw [hbeq, h2]
    rw [if_neg (by simp)]
    apply string_data_inj
    simp only [String.data_append, List.append_assoc, List.append_cancel_left_eq]
    rfl
  · rfl

/-- Witness for C9: the path form at a concrete directory, trial index 3,
and a one-element score list. -/
theorem checkpoint_path_form_and_eval_witness :
    checkpointFile "/scratch/rpv_hpo_24194075" 3 =
      "/scratch/rpv_hpo_24194075" ++ "/model_" ++ Nat.repr 3 ++ ".h5" ∧
    evaluatorModelFile "/scratch/rpv_hpo_24194075" [(1 : ℚ)/2] =
      checkpointFile "/scratch/rpv_hpo_24194075" (argmax [(1 : ℚ)/2]) :=
  checkpoint_path_form_and_eval "/scratch/rpv_hpo_24194075" 3 [(1 : ℚ)/2]
    (by decide) (by decide)

/-- The pending-result handle returned by `lv.apply`: an opaque reference to
a possibly-failed remote computation plus its start/completion timestamps.
The remote outcome is a `TrainingHistory` or a raised error. -/
structure AsyncResult where
  result : Except String TrainingHistory
  started : ℚ
  completed : ℚ

/-- The blocking fetch `ar.get()`: returns the remote history, or re-raises
the remote error locally. -/
def AsyncResult.get (ar : AsyncResult) : Except String TrainingHistory := ar.result

/-- The dispatch loop of cell 10: `results = []`, then for each trial index
submit `build_and_train` with that trial's descriptor and append the handle:
`results.append(lv.apply(build_and_train, …))`. -/
def dispatchLoop (submit : JobDescriptor → AsyncResult) (s : HPOSamples) (dir : String)
    (n : Nat) : List AsyncResult :=
  (List.range n).foldl (fun results ihp => results ++ [submit (mkDescriptor s dir ihp)]) []

theorem foldl_append_singleton {α β : Type} (f : α → β) :
    ∀ (l : List α) (acc : List β),
      l.foldl (fun rs x => rs ++ [f x]) acc = acc ++ l.map f := by
  intro l
  induction l with
  | nil => intro acc; simp
  | cons x xs ih =>
    intro acc
    rw [List.foldl_cons, ih (acc ++ [f x]), List.map_cons, List.append_assoc]
    rfl

theorem dispatchLoop_eq_map (submit : JobDescriptor → AsyncResult) (s : HPOSamples)
    (dir : String) (n : Nat) :
    dispatchLoop submit s dir n = (List.range n).map (fun ihp => submit (mkDescriptor s dir ihp)) := by
  rw [dispatchLoop, foldl_append_singleton]
  rfl

/-- C6: the dispatch loop accumulates exactly one handle per submitted job
descriptor: for every trial count `n` the handle list has the same length as
the descriptor list, namely `n`. -/
theorem dispatchLoop_one_handle_per_job (submit : JobDescriptor → AsyncResult)
    (s : HPOSamples) (dir : String) (n : Nat) :
    (dispatchLoop submit s dir n).length = (dispatchJobs s dir n).length ∧
    (dispatchLoop submit s dir n).length = n := by
  rw [dispatchLoop_eq_map, dispatchJobs]
  constructor
  · rw [List.length_map, List.length_map]
  · rw [List.length_map, List.length_range]

/-- The result collection of cell 13: `histories = [ar.get() for ar in
results]`, fetching each handle in submission order; the first remote error
re-raised by a fetch aborts the whole comprehension. -/
def collectHistories : List AsyncResult → Except String (List TrainingHistory)
  | [] => Except.ok []
  | ar :: rest =>
    match ar.get with
    | Except.error e => Except.error e
    | Except.ok h =>
      match collectHistories rest with
      | Except.error e => Except.error e
      | Except.ok hs => Except.ok (h :: hs)

theorem collectHistories_ok (l : List AsyncResult) (hs : List TrainingHistory)
    (h : collectHistories l = Except.ok hs) :
    hs.length = l.length ∧
    ∀ i, i < l.length →
      ∃ ar hist, l.get? i = some ar ∧ hs.get? i = some hist ∧ ar.get = Except.ok hist := by
  induction l generalizing hs with
  | nil =>
    cases h
    exact ⟨rfl, fun i hi => absurd hi (by simp)⟩
  | cons ar rest ih =>
    rw [collectHistories] at h
    cases har : ar.get with
    | error e => rw [har] at h; cases h
    | ok hist =>
      rw [har] at h
      cases hrest : collectHistories rest with
      | error e => rw [hrest] at h; cases h
      | ok tl =>
        rw [hrest] at h
        cases h
        obtain ⟨hlen, hidx⟩ := ih tl hrest
        constructor
        · simp [hlen]
        · intro i hi
          cases i with
          | zero => exact ⟨ar, hist, rfl, rfl, har⟩
          | succ k =>
            have hk : k < rest.length := by
              simp only [List.length_cons] at hi
              omega
            obtain ⟨ar', hist', h1, h2, h3⟩ := hidx k hk
            exact ⟨ar', hist', h1, h2, h3⟩

/-- C4: when collection succeeds, the Result Collector applied to the
handles produced by the dispatch loop (in submission order) returns exactly
one history per handle, and the history at position `i` is the result of the
job submitted at position `i`. -/
theorem resultCollector_index_preserving (submit : JobDescriptor → AsyncResult)
    (s : HPOSamples) (dir : String) (n : Nat) (hs : List TrainingHistory)
    (h : collectHistories (dispatchLoop submit s dir n) = Except.ok hs) :
    hs.length = n ∧
    ∀ i, i < n →
      ∃ hist, hs.get? i = some hist ∧
        (submit (mkDescriptor s dir i)).get = Except.ok hist := by
  rw [dispatchLoop_eq_map] at h
  obtain ⟨hlen, hidx⟩ := collectHistories_ok _ hs h
  have hlen' : hs.length = n := by
    rw [hlen, List.length_map, List.length_range]
  refine ⟨hlen', ?_⟩
  intro i hi
  have hi' : i < ((List.range n).map (fun ihp => submit (mkDescriptor s dir ihp))).length := by
    rw [List.length_map, List.length_range]
    exact hi
  obtain ⟨ar, hist, h1, h2, h3⟩ := hidx i hi'
  have har : ar = submit (mkDescriptor s dir i) := by
    rw [List.get?_map] at h1
    rcases Option.map_eq_some'.mp h1 with ⟨a, ha, hfa⟩
    rcases List.get?_eq_some.mp ha with ⟨hlt, hget⟩
    have hai : a = i := by
      rw [← hget]
      exact List.get_range i hlt
    rw [← hfa, hai]
  rw [har] at h3
  exact ⟨hist, h2, h3⟩

/-- A one-epoch training history used to instantiate the collector
theorems. -/
def sampleHistory : TrainingHistory :=
  { loss := [(1 : ℚ)/4], acc := [(3 : ℚ)/4], val_loss := [(1 : ℚ)/2],
    val_acc := [(1 : ℚ)/2] }

/-- A submission function whose remote jobs all succeed with
`sampleHistory`. -/
def submitOk : JobDescriptor → AsyncResult :=
  fun _ => { result := Except.ok sampleHistory, started := 0, completed := 1 }

/-- Witness for C4: a one-trial dispatch whose collection succeeds, with the
history at position 0 being the submitted job's result. -/
theorem resultCollector_index_preserving_witness :
    [sampleHistory].length = 1 ∧
    ∀ i, i < 1 →
      ∃ hist, [sampleHistory].get? i = some hist ∧
        (submitOk (mkDescriptor witnessSamples "/scratch/rpv_hpo_24194075" i)).get =
          Except.ok hist :=
  resultCollector_index_preserving submitOk witnessSamples "/scratch/rpv_hpo_24194075" 1
    [sampleHistory] rfl

/-- C7: a remote error is re-raised by the blocking fetch `get`, and the
collection comprehension does no trapping: if the handle at position `k`
failed with error `e` and every earlier handle succeeded, the whole
collection aborts with exactly that error — it never returns a histories
list, so no result of any handle after position `k` is collected. -/
theorem resultCollector_error_aborts (l : List AsyncResult) (k : Nat) (ar : AsyncResult)
    (e : String) (hk : l.get? k = some ar) (herr : ar.get = Except.error e)
    (hbefore : ∀ j arj, j < k → l.get? j = some arj →
      ∃ hist, arj.get = Except.ok hist) :
    AsyncResult.get ar = Except.error e ∧
    collectHistories l = Except.error e ∧
    ∀ hs, collectHistories l ≠ Except.ok hs := by
  have hcol : collectHistories l = Except.error e := by
    induction l generalizing k with
    | nil => cases hk
    | cons a rest ih =>
      cases k with
      | zero =>
        rw [List.get?_cons_zero] at hk
        cases hk
        rw [collectHistories, herr]
      | succ k1 =>
        rw [List.get?_cons_succ] at hk
        obtain ⟨hist0, h0⟩ := hbefore 0 a (Nat.succ_pos k1) List.get?_cons_zero
        rw [collectHistories, h0]
        have hrest : collectHistories rest = Except.error e := by
          apply ih k1 hk
          intro j arj hj harj
          exact hbefore (j + 1) arj (Nat.succ_lt_succ hj) (by rw [List.get?_cons_succ]; exact harj)
        rw [hrest]
  refine ⟨herr, hcol, ?_⟩
  intro hs hcontra
  rw [hcol] at hcontra
  cases hcontra

/-- A handle whose remote job failed with the error message "boom". -/
def failedHandle : AsyncResult :=
  { result := Except.error "boom", started := 0, completed := 1 }

/-- A handle whose remote job succeeded with `sampleHistory`. -/
def okHandle : AsyncResult :=
  { result := Except.ok sampleHistory, started := 0, completed := 1 }

/-- Witness for C7: with one succeeding handle followed by a failed one and
one more pending success, collection aborts with the failure's error. -/
theorem resultCollector_error_aborts_witness :
    AsyncResult.get failedHandle = Except.error "boom" ∧
    collectHistories [okHandle, failedHandle, okHandle] = Except.error "boom" ∧
    ∀ hs, collectHistories [okHandle, failedHandle, okHandle] ≠ Except.ok hs :=
  resultCollector_error_aborts [okHandle, failedHandle, okHandle] 1 failedHandle "boom"
    rfl rfl
    (by
      intro j arj hj harj
      have hj0 : j = 0 := by omega
      rw [hj0] at harj
      rw [List.get?_cons_zero] at harj
      cases harj
      exact ⟨sampleHistory, rfl⟩)

/-- The scalar metrics printed by `summarize_metrics`: accuracy, purity
(precision) and efficiency (recall). -/
structure MetricsReport where
  accuracy : ℚ
  purity : ℚ
  efficiency : ℚ
deriving DecidableEq

/-- The prediction vector `preds = outputs > threshold` of
`summarize_metrics`: elementwise strict greater-than against the decision
threshold. -/
def predsOf (threshold : ℚ) (outputs : List ℚ) : List Bool :=
  outputs.map (fun o => decide (threshold < o))

/-- The weight vector actually applied by the sklearn metrics: the given
`sample_weight` when present, else the implicit unit weight per sample. -/
def effWeights (n : Nat) : Option (List ℚ) → List ℚ
  | none => List.replicate n 1
  | some w => w

/-- Sum of the weights of the selected samples (the weighted count used by
the sklearn metric definitions). -/
def wsum : List ℚ → List Bool → ℚ
  | w :: ws, b :: bs => (if b then w else 0) + wsum ws bs
  | _, _ => 0

/-- sklearn `accuracy_score(labels, preds, sample_weight)`: the weighted
fraction of samples whose prediction equals the label (division by a zero
total weight yields 0, as `ℚ` division by zero is 0). -/
def accuracy_score (labels preds : List Bool) (weights : Option (List ℚ)) : ℚ :=
  let w := effWeights labels.length weights
  wsum w (List.zipWith (fun l p => l == p) labels preds) / w.sum

/-- sklearn `precision_score`: weighted true positives over weighted
predicted positives (0 when no positives are predicted). -/
def precision_score (labels preds : List Bool) (weights : Option (List ℚ)) : ℚ :=
  let w := effWeights labels.length weights
  wsum w (List.zipWith (fun l p => l && p) labels preds) / wsum w preds

/-- sklearn `recall_score`: weighted true positives over weighted actual
positives (0 when no positives exist). -/
def recall_score (labels preds : List Bool) (weights : Option (List ℚ)) : ℚ :=
  let w := effWeights labels.length weights
  wsum w (List.zipWith (fun l p => l && p) labels preds) / wsum w labels

/-- The three metric values computed from a fixed prediction vector. -/
def metricsFromPreds (labels preds : List Bool) (weights : Option (List ℚ)) : MetricsReport :=
  { accuracy := accuracy_score labels preds weights,
    purity := precision_score labels preds weights,
    efficiency := recall_score labels preds weights }

/-- The `summarize_metrics(labels, outputs, threshold=0.5, weights=None)`
function of cell 26: thresholds the model outputs into predictions and
reports accuracy, purity and efficiency, optionally sample-weighted. -/
def summarize_metrics (labels : List Bool) (outputs : List ℚ) (threshold : ℚ)
    (weights : Option (List ℚ)) : MetricsReport :=
  metricsFromPreds labels (predsOf threshold outputs) weights

/-- The read-only inputs of one Evaluator run: ground-truth labels, the
loaded artifact's outputs on the held-out batch, the optional sample
weights, and the decision threshold. -/
structure EvalData where
  labels : List Bool
  outputs : List ℚ
  weights : Option (List ℚ)
  threshold : ℚ
deriving DecidableEq

/-- One Evaluator run: compute the metric report from the inputs and hand
the inputs back unchanged (evaluation is read-only). -/
def runEvaluator (d : EvalData) : MetricsReport × EvalData :=
  (summarize_metrics d.labels d.outputs d.threshold d.weights, d)

/-- C8: the Evaluator is deterministic and mutation-free: a run returns its
inputs unchanged, and a second run on the data returned by the first
produces the identical metric report (and identical data again), for every
input, threshold and weight option — so the weighted and unweighted variants
are each idempotent. -/
theorem evaluator_deterministic (d : EvalData) :
    (runEvaluator d).2 = d ∧
    runEvaluator ((runEvaluator d).2) = runEvaluator d ∧
    (runEvaluator ((runEvaluator d).2)).1 = (runEvaluator d).1 :=
  ⟨rfl, rfl, rfl⟩

/-- C10: the decision threshold comparison of `summarize_metrics` is strict:
an output exactly equal to the threshold yields prediction `false` (a
negative prediction), and the metric report — for any labels and any weight
option, covering both the weighted and unweighted variants — is computed
from exactly this prediction vector. -/
theorem threshold_comparison_strict (threshold : ℚ) (outputs : List ℚ) (i : Nat)
    (h : outputs.get? i = some threshold) :
    (predsOf threshold outputs).get? i = some false ∧
    ∀ labels weights,
      summarize_metrics labels outputs threshold weights =
        metricsFromPreds labels (predsOf threshold outputs) weights := by
  constructor
  · rw [predsOf, List.get?_map, h]
    simp
  · intro labels weights
    rfl

/-- Witness for C10: with outputs `[1/2]` and the default threshold `1/2`,
the sample at position 0 is classified as a negative prediction. -/
theorem threshold_comparison_strict_witness :
    (predsOf ((1 : ℚ)/2) [(1 : ℚ)/2]).get? 0 = some false ∧
    ∀ labels weights,
      summarize_metrics labels [(1 : ℚ)/2] ((1 : ℚ)/2) weights =
        metricsFromPreds labels (predsOf ((1 : ℚ)/2) [(1 : ℚ)/2]) weights :=
  threshold_comparison_strict ((1 : ℚ)/2) [(1 : ℚ)/2] 0 rfl
